import Mathlib

/-!
Verification of the immanager repository (image load / search / cluster tool).

Modelling conventions (shallow embedding of the Python source):
* Python strings are modelled as `List Char` (`PyStr`); `str.split`,
  `str.lower`, `str.endswith`, slicing and concatenation become the
  corresponding executable list operations.
* Python dicts keyed by strings are association lists built with
  `dictInsert`, which reproduces dict-assignment semantics: an existing
  key is updated in place, a new key is appended; `dictLookup` is `d[k]`
  returning `none` where Python would raise `KeyError`.
* External libraries are parameters of the embedded functions:
  PIL's `Image.open(...).convert("RGB")` is a function
  `PyStr → Option Image` (`none` models a raised exception), the CLIP
  encoder is `Image → Embedding`, the floating-point similarity score
  produced by `cosine_similarity` is an exact-valued score function
  `Embedding → Embedding → ℚ`, and the labels computed by sklearn's
  `KMeans(...).fit` are a `List Nat` argument subject to the library
  contract (one label per sample, each label below `n_clusters`).
* Side effects on the SMB connection are recorded as an `Event` trace
  returned alongside the result of `load_images_combined`.
-/

namespace Immanager

/-- A Python string, modelled as its list of characters. -/
abbrev PyStr := List Char

/-- Coercion from Lean string literals to the `PyStr` model. -/
def pyStr (s : String) : PyStr := s.toList

/-- An in-memory decoded image (PIL image); its pixel content is irrelevant
to every claim, so it is an opaque tag. -/
structure Image where
  tag : Nat
deriving DecidableEq

/-- An embedding vector.  The floating-point entries of the numpy vectors
are modelled as exact rationals. -/
abbrev Embedding := List ℚ

/-- Python dict assignment `d[k] = v`: update the first occurrence of the
key in place, otherwise append the new binding. -/
def dictInsert {β : Type} (k : PyStr) (v : β) : List (PyStr × β) → List (PyStr × β)
  | [] => [(k, v)]
  | p :: d => if p.1 = k then (k, v) :: d else p :: dictInsert k v d

/-- Python dict access `d[k]`, with `none` where Python raises `KeyError`. -/
def dictLookup {β : Type} (k : PyStr) : List (PyStr × β) → Option β
  | [] => none
  | p :: d => if p.1 = k then some p.2 else dictLookup k d

/-! ## src/search.py -/

/-- `search.py`, `search_similar_images`: score every image embedding
against the text embedding (the `similarities` dict, whose keys are the
distinct keys of `image_embeddings` in iteration order), sort the items in
descending score order (Python's stable `sorted` with `reverse=True`), and
keep the first `top_k` entries.  `cosine_similarity` is the score function
from lines 3-4 of `search.py`, abstracted to an exact-valued function
because its value is floating point. -/
def search_similar_images (cosine_similarity : Embedding → Embedding → ℚ)
    (text_embedding : Embedding) (image_embeddings : List (PyStr × Embedding))
    (top_k : Nat) : List (PyStr × ℚ) :=
  let similarities := image_embeddings.map (fun p => (p.1, cosine_similarity text_embedding p.2))
  let sorted_images := similarities.insertionSort (fun x y => y.2 ≤ x.2)
  sorted_images.take top_k

/-- C1: on a non-empty map from filenames to image embeddings,
`search_similar_images` returns the filenames paired with their similarity
scores, sorted in descending score order and truncated to the first `top_k`
entries (so at most `top_k` results, ties broken arbitrarily). -/
theorem search_similar_images_top_k (cs : Embedding → Embedding → ℚ) (t : Embedding)
    (ies : List (PyStr × Embedding)) (k : Nat)
    (_hne : ies ≠ []) (_hnd : (ies.map Prod.fst).Nodup) :
    ∃ l : List (PyStr × ℚ),
      l.Perm (ies.map (fun p => (p.1, cs t p.2))) ∧
      l.Sorted (fun x y => y.2 ≤ x.2) ∧
      search_similar_images cs t ies k = l.take k ∧
      (search_similar_images cs t ies k).length = min k ies.length := by
  haveI : IsTotal (PyStr × ℚ) (fun x y => y.2 ≤ x.2) := ⟨fun a b => le_total b.2 a.2⟩
  haveI : IsTrans (PyStr × ℚ) (fun x y => y.2 ≤ x.2) := ⟨fun _ _ _ h1 h2 => le_trans h2 h1⟩
  refine ⟨(ies.map (fun p => (p.1, cs t p.2))).insertionSort (fun x y => y.2 ≤ x.2),
    List.perm_insertionSort _ _, List.sorted_insertionSort _ _, ?_, ?_⟩
  · rfl
  · simp [search_similar_images]

/-- Witness for C1 at a concrete input: two images, dot-product score,
`top_k = 1`. -/
theorem search_similar_images_top_k_witness :
    ([(pyStr "a", ([1, 0] : Embedding)), (pyStr "b", [0, 1])] ≠ []) ∧
    (([(pyStr "a", ([1, 0] : Embedding)), (pyStr "b", [0, 1])].map Prod.fst).Nodup) ∧
    (∃ l : List (PyStr × ℚ),
      l.Perm ([(pyStr "a", ([1, 0] : Embedding)), (pyStr "b", [0, 1])].map
        (fun p => (p.1, (List.zipWith (fun x y => x * y) ([1, 0] : Embedding) p.2).sum))) ∧
      l.Sorted (fun x y => y.2 ≤ x.2) ∧
      search_similar_images (fun a b => (List.zipWith (fun x y => x * y) a b).sum)
        ([1, 0] : Embedding) [(pyStr "a", [1, 0]), (pyStr "b", [0, 1])] 1 = l.take 1 ∧
      (search_similar_images (fun a b => (List.zipWith (fun x y => x * y) a b).sum)
        ([1, 0] : Embedding) [(pyStr "a", [1, 0]), (pyStr "b", [0, 1])] 1).length =
        min 1 ([(pyStr "a", ([1, 0] : Embedding)), (pyStr "b", [0, 1])]).length) :=
  ⟨by decide, by decide,
    search_similar_images_top_k (fun a b => (List.zipWith (fun x y => x * y) a b).sum)
      [1, 0] [(pyStr "a", [1, 0]), (pyStr "b", [0, 1])] 1 (by decide) (by decide)⟩

/-! ## src/clustering.py -/

/-- `clustering.py`, `cluster_images`: take the keys of the embeddings dict
in order, fit k-means, pre-seed the `clusters` dict with keys
`0, ..., num_clusters - 1` mapped to empty lists, and append each filename
to the list of its label.  `kmeans_labels` stands for `kmeans.labels_`,
the sklearn output, which by the library contract contains one label per
sample, each below `num_clusters` (a label outside that range would be a
`KeyError` in the source; the model is used only within the contract). -/
def cluster_images (kmeans_labels : List Nat)
    (image_embeddings : List (PyStr × Embedding)) (num_clusters : Nat) :
    List (Nat × List PyStr) :=
  let filenames := image_embeddings.map Prod.fst
  let clusters := (List.range num_clusters).map (fun i => (i, ([] : List PyStr)))
  (filenames.zip kmeans_labels).foldl
    (fun cs p => cs.map (fun c => if c.1 = p.2 then (c.1, c.2 ++ [p.1]) else c)) clusters

theorem cluster_fold_eq (ps : List (PyStr × Nat)) :
    ∀ d : List (Nat × List PyStr),
      ps.foldl
        (fun cs p => cs.map (fun c => if c.1 = p.2 then (c.1, c.2 ++ [p.1]) else c)) d =
      d.map (fun c => (c.1, c.2 ++ (ps.filter (fun q => c.1 = q.2)).map Prod.fst)) := by
  induction ps with
  | nil => intro d; simp
  | cons p ps ih =>
    intro d
    rw [List.foldl_cons, ih, List.map_map]
    refine List.map_congr_left (fun c _ => ?_)
    simp only [Function.comp_apply, List.filter_cons]
    by_cases h : c.1 = p.2
    · simp [h, List.append_assoc]
    · simp [h]

theorem cluster_images_eq (labels : List Nat) (ies : List (PyStr × Embedding))
    (nc : Nat) :
    cluster_images labels ies nc =
      (List.range nc).map (fun i =>
        (i, (((ies.map Prod.fst).zip labels).filter (fun q => i = q.2)).map Prod.fst)) := by
  unfold cluster_images
  rw [cluster_fold_eq, List.map_map]
  simp

theorem zip_mem_of_mem_left {fns : List PyStr} {lbls : List Nat} {fn : PyStr}
    (hlen : lbls.length = fns.length) (hmem : fn ∈ fns) :
    ∃ l, (fn, l) ∈ fns.zip lbls ∧ l ∈ lbls := by
  induction fns generalizing lbls with
  | nil => cases hmem
  | cons f fs ih =>
    cases lbls with
    | nil => cases hlen
    | cons l ls =>
      rcases List.mem_cons.mp hmem with h | h
      · exact ⟨l, by simp [h], by simp⟩
      · rcases ih (by simpa using hlen) h with ⟨l', hl', hmem'⟩
        exact ⟨l', List.mem_cons_of_mem _ hl', List.mem_cons_of_mem _ hmem'⟩

theorem zip_label_unique {fns : List PyStr} {lbls : List Nat} {fn : PyStr} {i j : Nat}
    (hnd : fns.Nodup) (hi : (fn, i) ∈ fns.zip lbls) (hj : (fn, j) ∈ fns.zip lbls) :
    i = j := by
  induction fns generalizing lbls with
  | nil => simp at hi
  | cons f fs ih =>
    cases lbls with
    | nil => simp at hi
    | cons l ls =>
      rcases List.mem_cons.mp hi with h | h <;> rcases List.mem_cons.mp hj with h' | h'
      · rw [Prod.mk.injEq] at h h'
        exact h.2.trans h'.2.symm
      · rw [Prod.mk.injEq] at h
        exact absurd (h.1 ▸ (List.of_mem_zip h').1) (List.nodup_cons.mp hnd).1
      · rw [Prod.mk.injEq] at h'
        exact absurd (h'.1 ▸ (List.of_mem_zip h).1) (List.nodup_cons.mp hnd).1
      · exact ih (List.nodup_cons.mp hnd).2 h h'

/-- C2: for every non-empty embeddings map and every requested cluster
count, `cluster_images` returns groups keyed `0, ..., num_clusters - 1`
(exactly `num_clusters` of them) and every input filename belongs to
exactly one group.  The hypotheses on `labels` are sklearn's `fit`
contract (one label per sample, each below `num_clusters`). -/
theorem cluster_images_partition (labels : List Nat) (ies : List (PyStr × Embedding))
    (nc : Nat) (_hne : ies ≠ [])
    (hlen : labels.length = ies.length)
    (hlt : ∀ l ∈ labels, l < nc)
    (hnd : (ies.map Prod.fst).Nodup) :
    ((cluster_images labels ies nc).map Prod.fst = List.range nc) ∧
    (∀ fn ∈ ies.map Prod.fst,
      (cluster_images labels ies nc).countP (fun c => decide (fn ∈ c.2)) = 1) := by
  constructor
  · rw [cluster_images_eq, List.map_map]
    simp [Function.comp_def]
  · intro fn hfn
    rcases zip_mem_of_mem_left (by simpa using hlen) hfn with ⟨l, hl, hlmem⟩
    rw [cluster_images_eq, List.countP_map]
    have hmemiff : ∀ i : Nat,
        (fn ∈ ((((ies.map Prod.fst).zip labels).filter (fun q => i = q.2)).map Prod.fst))
          ↔ (fn, i) ∈ (ies.map Prod.fst).zip labels := by
      intro i
      constructor
      · intro h
        rcases List.mem_map.mp h with ⟨q, hq, hq1⟩
        rcases List.mem_filter.mp hq with ⟨hqz, hqi⟩
        have h2 : i = q.2 := of_decide_eq_true hqi
        have heq : (fn, i) = q := Prod.ext hq1.symm h2
        rw [heq]
        exact hqz
      · intro h
        exact List.mem_map.mpr ⟨(fn, i), List.mem_filter.mpr ⟨h, by simp⟩, rfl⟩
    have hcongr : ∀ i ∈ List.range nc,
        ((fun c : Nat × List PyStr => decide (fn ∈ c.2)) ∘ fun i =>
          (i, (((ies.map Prod.fst).zip labels).filter (fun q => i = q.2)).map Prod.fst)) i
          = true ↔
        (fun i : Nat => decide (i = l)) i = true := by
      intro i _
      simp only [Function.comp_apply, decide_eq_true_eq]
      rw [hmemiff i]
      constructor
      · intro h
        exact zip_label_unique hnd h hl
      · intro h
        exact h ▸ hl
    rw [List.countP_congr hcongr, List.countP_eq_length_filter, List.filter_eq,
      List.length_replicate, List.count_eq_one_of_mem
      (List.nodup_range nc) (List.mem_range.mpr (hlt l hlmem))]

/-- Witness for C2 at a concrete input: three filenames, labels
`[0, 1, 0]`, two requested clusters. -/
theorem cluster_images_partition_witness :
    (([(pyStr "a", ([1] : Embedding)), (pyStr "b", [2]), (pyStr "c", [3])]
        : List (PyStr × Embedding)) ≠ []) ∧
    (([0, 1, 0] : List Nat).length =
      ([(pyStr "a", ([1] : Embedding)), (pyStr "b", [2]), (pyStr "c", [3])]).length) ∧
    (∀ l ∈ ([0, 1, 0] : List Nat), l < 2) ∧
    ((([(pyStr "a", ([1] : Embedding)), (pyStr "b", [2]), (pyStr "c", [3])]).map
      Prod.fst).Nodup) ∧
    (((cluster_images [0, 1, 0]
        [(pyStr "a", [1]), (pyStr "b", [2]), (pyStr "c", [3])] 2).map Prod.fst =
      List.range 2) ∧
    (∀ fn ∈ ([(pyStr "a", ([1] : Embedding)), (pyStr "b", [2]), (pyStr "c", [3])]).map
        Prod.fst,
      (cluster_images [0, 1, 0]
        [(pyStr "a", [1]), (pyStr "b", [2]), (pyStr "c", [3])] 2).countP
        (fun c => decide (fn ∈ c.2)) = 1)) :=
  ⟨by decide, by decide, by decide, by decide,
    cluster_images_partition [0, 1, 0]
      [(pyStr "a", [1]), (pyStr "b", [2]), (pyStr "c", [3])] 2
      (by decide) (by decide) (by decide) (by decide)⟩

/-! ## gui.py: parse_smb_url -/

/-- `gui.py` lines 28-43, `parse_smb_url`: check the `smb://` scheme, drop
the six scheme characters, split the remainder on `/`, require at least a
server and a share component, and rebuild the relative path (`"/"` when no
non-empty path component follows the share).  `Except.error` models
`raise ValueError`. -/
def parse_smb_url (url : PyStr) : Except PyStr (PyStr × PyStr × PyStr) :=
  if List.isPrefixOf (pyStr "smb://") url then
    let trimmed := url.drop 6
    let parts := trimmed.splitOn '/'
    match parts with
    | server :: share :: rest =>
      let rel_path : PyStr :=
        match rest with
        | [] => pyStr "/"
        | p :: _ => if p = [] then pyStr "/" else '/' :: List.intercalate ['/'] rest
      .ok (server, share, rel_path)
    | _ => .error (pyStr "SMB URL must contain at least server and share")
  else .error (pyStr "Not an SMB URL")

/-- C4: on a URL of the form `smb://server/share/p1/.../pn` (components
free of slashes, path components non-empty) `parse_smb_url` returns
`(server, share, "/p1/.../pn")`, with `"/"` as the relative path when no
path component follows the share; and it raises `ValueError` exactly when
the string does not start with `smb://` or has fewer than two
slash-separated components after that scheme. -/
theorem parse_smb_url_spec (server share : PyStr) (ps : List PyStr)
    (hs : ('/' : Char) ∉ server) (hsh : ('/' : Char) ∉ share)
    (hps : ∀ p ∈ ps, ('/' : Char) ∉ p ∧ p ≠ []) :
    (parse_smb_url (pyStr "smb://" ++ List.intercalate ['/'] (server :: share :: ps)) =
      .ok (server, share,
        if ps.isEmpty then pyStr "/" else '/' :: List.intercalate ['/'] ps)) ∧
    (∀ url : PyStr, (∃ e, parse_smb_url url = .error e) ↔
      (List.isPrefixOf (pyStr "smb://") url = false ∨
        ((url.drop 6).splitOn '/').length < 2)) := by
  constructor
  · have hpre : List.isPrefixOf (pyStr "smb://")
        (pyStr "smb://" ++ List.intercalate ['/'] (server :: share :: ps)) = true :=
      List.isPrefixOf_iff_prefix.mpr (List.prefix_append _ _)
    have hlen6 : (pyStr "smb://").length = 6 := rfl
    have hdrop : (pyStr "smb://" ++ List.intercalate ['/'] (server :: share :: ps)).drop 6 =
        List.intercalate ['/'] (server :: share :: ps) := by
      rw [← hlen6, List.drop_left]
    have hsplit : (List.intercalate ['/'] (server :: share :: ps)).splitOn '/' =
        server :: share :: ps := by
      refine List.splitOn_intercalate _ '/' ?_ (by simp)
      intro l hl
      rcases List.mem_cons.mp hl with h | h
      · exact h ▸ hs
      rcases List.mem_cons.mp h with h' | h'
      · exact h' ▸ hsh
      · exact (hps l h').1
    simp only [parse_smb_url, hpre, if_true, hdrop, hsplit]
    cases ps with
    | nil => rfl
    | cons p ps' =>
      have hp : p ≠ [] := (hps p (by simp)).2
      simp [hp]
  · intro url
    by_cases hpre : List.isPrefixOf (pyStr "smb://") url = true
    · simp only [parse_smb_url, hpre, if_true]
      rcases hsp : (url.drop 6).splitOn '/' with _ | ⟨a, _ | ⟨b, rest⟩⟩
      · simp [hsp, hpre]
      · simp [hsp, hpre]
      · simp [hsp, hpre]
    · rw [Bool.not_eq_true] at hpre
      simp [parse_smb_url, hpre]

/-- Witness for C4 at a concrete input: `smb://srv/sh/p`. -/
theorem parse_smb_url_spec_witness :
    (('/' : Char) ∉ pyStr "srv") ∧ (('/' : Char) ∉ pyStr "sh") ∧
    (∀ p ∈ [pyStr "p"], ('/' : Char) ∉ p ∧ p ≠ []) ∧
    ((parse_smb_url (pyStr "smb://" ++
        List.intercalate ['/'] [pyStr "srv", pyStr "sh", pyStr "p"]) =
      .ok (pyStr "srv", pyStr "sh",
        if ([pyStr "p"] : List PyStr).isEmpty then pyStr "/"
        else '/' :: List.intercalate ['/'] [pyStr "p"])) ∧
    (∀ url : PyStr, (∃ e, parse_smb_url url = .error e) ↔
      (List.isPrefixOf (pyStr "smb://") url = false ∨
        ((url.drop 6).splitOn '/').length < 2))) :=
  ⟨by decide, by decide, by decide,
    parse_smb_url_spec (pyStr "srv") (pyStr "sh") [pyStr "p"]
      (by decide) (by decide) (by decide)⟩

/-! ## gui.py: directory walks and image loading -/

/-- A finite directory tree: regular file names, and named subdirectories.
`ok = false` models a directory whose listing raises (`conn.listPath`
failing, caught at gui.py lines 52-54, or an unreadable local directory,
ignored by `os.walk`).  The `.` and `..` entries skipped at gui.py line 59
are not represented. -/
inductive DirTree where
  | node (ok : Bool) (files : List PyStr) (subdirs : List (PyStr × DirTree))

/-- `os.path.join` as used here: both arguments are joined with a single
separator (the second argument is always a bare entry name). -/
def pathJoin (a b : PyStr) : PyStr :=
  if a = [] ∨ a.getLast? = some '/' then a ++ b else a ++ '/' :: b

/-- One triple yielded by a directory walk: current path, subdirectory
names, file names. -/
abbrev WalkFrame := PyStr × List PyStr × List PyStr

/-- `gui.py` lines 45-68, `smb_walk`: yield `(top, dirs, files)` for the
current directory (nothing when listing it fails), then recurse into each
subdirectory under `os.path.join(top, d)` in order. -/
def smb_walk (top : PyStr) : DirTree → List WalkFrame
  | .node ok files subdirs =>
    if ok then
      (top, subdirs.map Prod.fst, files) ::
        subdirs.attach.flatMap (fun d => smb_walk (pathJoin top d.1.1) d.1.2)
    else []
termination_by t => sizeOf t
decreasing_by
  have h1 := List.sizeOf_lt_of_mem d.2
  have h2 : sizeOf d.1.2 < sizeOf d.1 := by
    rcases d.1 with ⟨a, b⟩
    simp
  simp only [DirTree.node.sizeOf_spec]
  omega

/-- Python's `os.walk` (top-down, listing errors ignored by default),
used at gui.py line 138; it traverses a directory tree exactly as
`smb_walk` does. -/
def os_walk (top : PyStr) (t : DirTree) : List WalkFrame :=
  smb_walk top t

/-- The extension filter at gui.py lines 124 and 140 (and
image_embeddings.py line 12): `filename.lower().endswith(('.png', '.jpg',
'.jpeg'))`. -/
def hasImageExt (filename : PyStr) : Bool :=
  [pyStr ".png", pyStr ".jpg", pyStr ".jpeg"].any
    (fun ext => ext.isSuffixOf (filename.map Char.toLower))

/-- The candidate full paths attempted by a folder-branch loop of
`load_images_combined`: for each walked directory, the files whose names
pass the extension filter, joined to the directory path (gui.py lines
122-125 and 138-141). -/
def walkImageCandidates (walk : List WalkFrame) : List PyStr :=
  walk.flatMap (fun fr => (fr.2.2.filter hasImageExt).map (fun f => pathJoin fr.1 f))

/-- The shared per-file loading loop of `load_images_combined`: attempt
each path in order with the opener `get` (`Image.open(...).convert("RGB")`
on a local path or upload, `retrieveFile` plus `Image.open` on an SMB
path); on success store the image under the path, on exception print and
skip (gui.py lines 91-95, 126-134, 142-145). -/
def loadStep (get : PyStr → Option Image) (acc : List (PyStr × Image))
    (path : PyStr) : List (PyStr × Image) :=
  match get path with
  | some img => dictInsert path img acc
  | none => acc

/-- The loading loops themselves: fold `loadStep` over the attempted
paths, starting from the empty `images` dict. -/
def loadImagesFrom (get : PyStr → Option Image) (paths : List PyStr) :
    List (PyStr × Image) :=
  paths.foldl (loadStep get) []

/-! ## src/image_embeddings.py -/

/-- `image_embeddings.py` lines 17-24, `get_image_embeddings`: one
embedding per entry of the images dict, keyed by the same filename, in
iteration order.  `encode_image` is the CLIP model call
`model.encode_image(preprocess(img)...)`. -/
def get_image_embeddings (encode_image : Image → Embedding)
    (images_dict : List (PyStr × Image)) : List (PyStr × Embedding) :=
  images_dict.map (fun p => (p.1, encode_image p.2))

/-! ## gui.py: load_images_combined -/

/-- Observable side effects on the SMB connection of one
`load_images_combined` call. -/
inductive Event where
  | connect (server : PyStr) (port : Nat)
  | close
deriving DecidableEq

/-- Is this event a `SMBConnection.connect` call? -/
def Event.isConnect : Event → Bool
  | .connect _ _ => true
  | .close => false

/-- The external world of one `load_images_combined` call. -/
structure Env where
  /-- `Image.open(path).convert("RGB")` on a local path or uploaded file;
  `none` models a raised exception. -/
  openImage : PyStr → Option Image
  /-- `conn.retrieveFile` into a buffer followed by
  `Image.open(buffer).convert("RGB")` for an SMB full path; `none` models
  a raised exception. -/
  retrieveImage : PyStr → Option Image
  /-- Result of `conn.connect(server_ip, 445)`. -/
  connectOk : PyStr → Nat → Bool
  /-- `os.path.isdir`. -/
  isDir : PyStr → Bool
  /-- The local directory tree rooted at a folder path. -/
  localTree : PyStr → DirTree
  /-- The SMB share subtree at `(share, rel_path)`. -/
  smbTree : PyStr → PyStr → DirTree

/-- The session state stored in `gr.State()`: the images dict and the
embeddings dict. -/
structure LoadState where
  images : List (PyStr × Image)
  embeddings : List (PyStr × Embedding)
deriving DecidableEq

/-- gui.py lines 151-156: the common tail of `load_images_combined`.  An
empty images dict is the "No images loaded" error; otherwise the
embeddings are computed and the state returned. -/
def finishLoad (encode_image : Image → Embedding) (images : List (PyStr × Image))
    (trace : List Event) : PyStr × Option LoadState × List Event :=
  if images.isEmpty then (pyStr "No images loaded", none, trace)
  else (pyStr "Images loaded successfully",
    some ⟨images, get_image_embeddings encode_image images⟩, trace)

/-- `gui.py` lines 77-156, `load_images_combined`: load from the uploaded
files if any are given, otherwise from the folder path (SMB URL or local
directory), and return the status string, the optional session state, and
the trace of SMB connection events. -/
def load_images_combined (env : Env) (encode_image : Image → Embedding)
    (files : List PyStr) (folder_path : PyStr) :
    PyStr × Option LoadState × List Event :=
  if ¬ files.isEmpty then
    finishLoad encode_image (loadImagesFrom env.openImage files) []
  else if ¬ folder_path.isEmpty then
    if List.isPrefixOf (pyStr "smb://") folder_path then
      match parse_smb_url folder_path with
      | .error e => (pyStr "Invalid SMB URL: " ++ e, none, [])
      | .ok (server, share, rel_path) =>
        if env.connectOk server 445 then
          finishLoad encode_image
            (loadImagesFrom env.retrieveImage
              (walkImageCandidates (smb_walk rel_path (env.smbTree share rel_path))))
            [.connect server 445, .close]
        else (pyStr "Connection failed.", none, [.connect server 445])
    else if env.isDir folder_path then
      finishLoad encode_image
        (loadImagesFrom env.openImage
          (walkImageCandidates (os_walk folder_path (env.localTree folder_path))))
        []
    else (pyStr "Invalid folder path provided.", none, [])
  else (pyStr "No images provided", none, [])

/-! ## gui.py: search and cluster callbacks -/

/-- `gui.py` lines 158-164, `search_images`: with no loaded state return
an empty gallery; otherwise embed the prompt, rank with
`search_similar_images` at `top_k = 5`, and collect the images of the
returned filenames.  `get_text_embedding` is the CLIP text encoder. -/
def search_images (get_text_embedding : PyStr → Embedding)
    (cosine_similarity : Embedding → Embedding → ℚ)
    (prompt : PyStr) (state : Option LoadState) : List Image :=
  match state with
  | none => []
  | some st =>
    let text_emb := get_text_embedding prompt
    let results := search_similar_images cosine_similarity text_emb st.embeddings 5
    results.filterMap (fun r => dictLookup r.1 st.images)

/-- `gui.py` lines 166-179, `cluster_images_gui`: with no loaded state
return the status string; otherwise cluster and render one HTML block per
cluster.  `pil_to_base64` is the data-URL encoder of gui.py lines 70-74. -/
def cluster_images_gui (kmeans_labels : List Nat) (pil_to_base64 : Image → PyStr)
    (state : Option LoadState) (num_clusters : Nat) : PyStr :=
  match state with
  | none => pyStr "No images loaded."
  | some st =>
    let clusters := cluster_images kmeans_labels st.embeddings num_clusters
    clusters.foldl (fun html c =>
      html ++ pyStr "<h3>Cluster " ++ (toString c.1).toList ++ pyStr "</h3>" ++
      pyStr "<div style=\x27display:flex; flex-wrap: wrap;\x27>" ++
      c.2.foldl (fun acc fn =>
        acc ++ pyStr "<img src=\x27" ++
        (match dictLookup fn st.images with
         | some img => pil_to_base64 img
         | none => []) ++
        pyStr "\x27 style=\x27width: 100px; margin: 5px;\x27>") [] ++
      pyStr "</div>") []

/-! ## Dictionary and loader lemmas -/

theorem dictLookup_dictInsert {β : Type} (j k : PyStr) (v : β)
    (d : List (PyStr × β)) :
    dictLookup k (dictInsert j v d) = if j = k then some v else dictLookup k d := by
  induction d with
  | nil => simp [dictInsert, dictLookup]
  | cons p d ih =>
    by_cases hpj : p.1 = j
    · rw [dictInsert, if_pos hpj, dictLookup]
      by_cases hjk : j = k
      · simp [hjk]
      · simp only [hjk, if_neg hjk, if_false]
        rw [dictLookup, if_neg (by rw [hpj]; exact hjk)]
    · rw [dictInsert, if_neg hpj, dictLookup]
      by_cases hpk : p.1 = k
      · rw [if_pos hpk, dictLookup, if_pos hpk, if_neg (by rw [← hpk]; exact fun h => hpj h.symm)]
      · rw [if_neg hpk, ih, dictLookup, if_neg hpk]

theorem loadImagesFrom_foldl_lookup (get : PyStr → Option Image) (paths : List PyStr)
    (acc : List (PyStr × Image)) (k : PyStr) :
    dictLookup k (paths.foldl (loadStep get) acc) =
      if k ∈ paths ∧ (get k).isSome then get k else dictLookup k acc := by
  induction paths generalizing acc with
  | nil => simp
  | cons p ps ih =>
    rw [List.foldl_cons, ih]
    by_cases hkp : k = p
    · subst hkp
      rcases hg : get k with _ | img
      · rw [show loadStep get acc k = acc by simp [loadStep, hg]]
        simp
      · rw [show loadStep get acc k = dictInsert k img acc by simp [loadStep, hg]]
        simp [dictLookup_dictInsert]
    · have hiff : (k ∈ p :: ps ∧ (get k).isSome) ↔ (k ∈ ps ∧ (get k).isSome) := by
        constructor
        · rintro ⟨hm, hs⟩
          rcases List.mem_cons.mp hm with h | h
          · exact absurd h hkp
          · exact ⟨h, hs⟩
        · rintro ⟨hm, hs⟩
          exact ⟨List.mem_cons_of_mem _ hm, hs⟩
      have hstep : dictLookup k (loadStep get acc p) = dictLookup k acc := by
        rcases hg : get p with _ | img
        · simp [loadStep, hg]
        · rw [show loadStep get acc p = dictInsert p img acc by simp [loadStep, hg],
            dictLookup_dictInsert, if_neg (fun h => hkp h.symm)]
      by_cases hmem : k ∈ ps ∧ (get k).isSome
      · rw [if_pos hmem, if_pos (hiff.mpr hmem)]
      · rw [if_neg hmem, if_neg (fun hc => hmem (hiff.mp hc)), hstep]

theorem loadImagesFrom_lookup (get : PyStr → Option Image) (paths : List PyStr)
    (k : PyStr) :
    dictLookup k (loadImagesFrom get paths) = if k ∈ paths then get k else none := by
  rw [loadImagesFrom, loadImagesFrom_foldl_lookup]
  rcases hg : get k with _ | img
  · simp [hg, dictLookup]
  · simp [hg, dictLookup]

theorem mem_keys_iff_lookup_isSome {β : Type} (k : PyStr) (d : List (PyStr × β)) :
    k ∈ d.map Prod.fst ↔ (dictLookup k d).isSome := by
  induction d with
  | nil => simp [dictLookup]
  | cons p d ih =>
    rw [List.map_cons, List.mem_cons, dictLookup]
    by_cases hpk : p.1 = k
    · rw [if_pos hpk]
      exact iff_of_true (Or.inl hpk.symm) rfl
    · rw [if_neg hpk]
      constructor
      · rintro (h | h)
        · exact absurd h.symm hpk
        · exact ih.mp h
      · intro h
        exact Or.inr (ih.mpr h)

theorem get_image_embeddings_keys (enc : Image → Embedding)
    (d : List (PyStr × Image)) :
    (get_image_embeddings enc d).map Prod.fst = d.map Prod.fst := by
  simp [get_image_embeddings, List.map_map, Function.comp_def]

theorem finishLoad_some {enc : Image → Embedding} {imgs : List (PyStr × Image)}
    {tr : List Event} {st : LoadState}
    (h : (finishLoad enc imgs tr).2.1 = some st) :
    st.images = imgs ∧ st.embeddings = get_image_embeddings enc imgs := by
  unfold finishLoad at h
  split at h
  · cases h
  · simp only at h
    cases h
    exact ⟨rfl, rfl⟩

theorem finishLoad_trace (enc : Image → Embedding) (imgs : List (PyStr × Image))
    (tr : List Event) : (finishLoad enc imgs tr).2.2 = tr := by
  unfold finishLoad
  split <;> rfl

/-- C3: whenever `load_images_combined` returns a session state, the
embeddings map has exactly the key set of the images map, because
`get_image_embeddings` produces one embedding per entry of the images
dict it is given. -/
theorem load_state_keys_align (env : Env) (enc : Image → Embedding)
    (files : List PyStr) (folder_path : PyStr) (st : LoadState)
    (h : (load_images_combined env enc files folder_path).2.1 = some st) :
    st.embeddings.map Prod.fst = st.images.map Prod.fst := by
  unfold load_images_combined at h
  split at h
  · obtain ⟨h1, h2⟩ := finishLoad_some h
    rw [h2, h1, get_image_embeddings_keys]
  · split at h
    · split at h
      · split at h
        · simp at h
        · split at h
          · obtain ⟨h1, h2⟩ := finishLoad_some h
            rw [h2, h1, get_image_embeddings_keys]
          · simp at h
      · split at h
        · obtain ⟨h1, h2⟩ := finishLoad_some h
          rw [h2, h1, get_image_embeddings_keys]
        · simp at h
    · simp at h

/-- Witness for C3 at a concrete input: one uploaded file that loads. -/
theorem load_state_keys_align_witness :
    ((load_images_combined
        ⟨fun _ => some ⟨0⟩, fun _ => none, fun _ _ => false, fun _ => false,
          fun _ => .node true [] [], fun _ _ => .node true [] []⟩
        (fun _ => ([1] : Embedding)) [pyStr "a"] []).2.1 =
      some ⟨[(pyStr "a", ⟨0⟩)], [(pyStr "a", [1])]⟩) ∧
    (([(pyStr "a", ([1] : Embedding))]).map Prod.fst =
      ([(pyStr "a", (⟨0⟩ : Image))]).map Prod.fst) :=
  ⟨by decide,
    load_state_keys_align
      ⟨fun _ => some ⟨0⟩, fun _ => none, fun _ _ => false, fun _ => false,
        fun _ => .node true [] [], fun _ _ => .node true [] []⟩
      (fun _ => ([1] : Embedding)) [pyStr "a"] []
      ⟨[(pyStr "a", ⟨0⟩)], [(pyStr "a", [1])]⟩ (by decide)⟩

/-- C5: in every per-file loading loop of `load_images_combined` (the
uploaded-files loop, the SMB loop and the local-walk loop all instantiate
`loadImagesFrom`), a file whose open or decode fails is simply absent from
the resulting images map, and every other file that loads successfully is
still present under its path. -/
theorem load_individual_failures_skipped (get : PyStr → Option Image)
    (paths : List PyStr) (k : PyStr) :
    (get k = none → dictLookup k (loadImagesFrom get paths) = none) ∧
    (∀ img, k ∈ paths → get k = some img →
      dictLookup k (loadImagesFrom get paths) = some img) := by
  constructor
  · intro hnone
    rw [loadImagesFrom_lookup]
    split
    · exact hnone
    · rfl
  · intro img hmem hsome
    rw [loadImagesFrom_lookup, if_pos hmem, hsome]

/-- Witness for C5 at a concrete input: `b` fails to load and is absent,
`a` succeeds and is present. -/
theorem load_individual_failures_skipped_witness :
    (dictLookup (pyStr "b")
      (loadImagesFrom (fun p => if p = pyStr "b" then none else some ⟨0⟩)
        [pyStr "a", pyStr "b", pyStr "c"]) = none) ∧
    (dictLookup (pyStr "a")
      (loadImagesFrom (fun p => if p = pyStr "b" then none else some ⟨0⟩)
        [pyStr "a", pyStr "b", pyStr "c"]) = some ⟨0⟩) :=
  ⟨(load_individual_failures_skipped
      (fun p => if p = pyStr "b" then none else some ⟨0⟩)
      [pyStr "a", pyStr "b", pyStr "c"] (pyStr "b")).1 (by decide),
   (load_individual_failures_skipped
      (fun p => if p = pyStr "b" then none else some ⟨0⟩)
      [pyStr "a", pyStr "b", pyStr "c"] (pyStr "a")).2 ⟨0⟩ (by decide) (by decide)⟩

theorem parse_smb_url_ok_scheme {url : PyStr} {v : PyStr × PyStr × PyStr}
    (h : parse_smb_url url = .ok v) :
    List.isPrefixOf (pyStr "smb://") url = true := by
  by_cases hp : List.isPrefixOf (pyStr "smb://") url = true
  · exact hp
  · rw [Bool.not_eq_true] at hp
    rw [parse_smb_url] at h
    simp [hp] at h

theorem scheme_url_not_isEmpty {url : PyStr}
    (h : List.isPrefixOf (pyStr "smb://") url = true) : url.isEmpty = false := by
  cases url
  · exact absurd h (by decide)
  · rfl

theorem parse_smb_url_error_msg {url e : PyStr}
    (hpre : List.isPrefixOf (pyStr "smb://") url = true)
    (h : parse_smb_url url = .error e) :
    e = pyStr "SMB URL must contain at least server and share" := by
  rw [parse_smb_url] at h
  simp only [hpre, if_true] at h
  split at h
  · simp at h
  · exact (Except.error.inj h).symm

theorem finishLoad_cases {enc : Image → Embedding} {imgs : List (PyStr × Image)}
    {tr : List Event} {s : PyStr} {o : Option LoadState} {etr : List Event}
    (h : finishLoad enc imgs tr = (s, o, etr)) :
    (s = pyStr "No images loaded" ∧ o = none) ∨
    (s = pyStr "Images loaded successfully" ∧ o ≠ none) := by
  unfold finishLoad at h
  split at h
  · cases h
    exact Or.inl ⟨rfl, rfl⟩
  · cases h
    exact Or.inr ⟨rfl, by simp⟩

/-- The five status strings `load_images_combined` can return together
with a `None` state (gui.py lines 102, 119, 147, 149, 152). -/
def loadErrorStatuses : List PyStr :=
  [pyStr "Invalid SMB URL: SMB URL must contain at least server and share",
   pyStr "Connection failed.",
   pyStr "Invalid folder path provided.",
   pyStr "No images provided",
   pyStr "No images loaded"]

/-- C6: `load_images_combined` returns a `None` session state exactly when
its status string is one of the short error statuses (invalid SMB URL,
connection failure, invalid folder path, no input, nothing loaded); on
every other return the state is present. -/
theorem load_error_status_iff_no_state (env : Env) (enc : Image → Embedding)
    (files : List PyStr) (folder_path : PyStr) :
    (load_images_combined env enc files folder_path).2.1 = none ↔
    (load_images_combined env enc files folder_path).1 ∈ loadErrorStatuses := by
  rcases hr : load_images_combined env enc files folder_path with ⟨s, o, tr⟩
  dsimp only
  unfold load_images_combined at hr
  split at hr
  · rcases finishLoad_cases hr with ⟨hs, ho⟩ | ⟨hs, ho⟩
    · rw [hs, ho]
      exact iff_of_true rfl (by decide)
    · rw [hs]
      exact iff_of_false ho (by decide)
  · split at hr
    · split at hr
      · rename_i hpre
        split at hr
        · rename_i e heq
          cases hr
          rw [parse_smb_url_error_msg hpre heq]
          exact iff_of_true rfl (by decide)
        · split at hr
          · rcases finishLoad_cases hr with ⟨hs, ho⟩ | ⟨hs, ho⟩
            · rw [hs, ho]
              exact iff_of_true rfl (by decide)
            · rw [hs]
              exact iff_of_false ho (by decide)
          · cases hr
            exact iff_of_true rfl (by decide)
      · split at hr
        · rcases finishLoad_cases hr with ⟨hs, ho⟩ | ⟨hs, ho⟩
          · rw [hs, ho]
            exact iff_of_true rfl (by decide)
          · rw [hs]
            exact iff_of_false ho (by decide)
        · cases hr
          exact iff_of_true rfl (by decide)
    · cases hr
      exact iff_of_true rfl (by decide)

/-- C7: an SMB load operation (empty upload list, folder path parsing as
an SMB URL) makes exactly one `connect` call on a freshly created
connection and, whenever the connection succeeds, closes it exactly once
before returning; a failed connection is never closed. -/
theorem smb_connect_once (env : Env) (enc : Image → Embedding) (folder_path : PyStr)
    (server share rel : PyStr)
    (hok : parse_smb_url folder_path = .ok (server, share, rel)) :
    ((load_images_combined env enc [] folder_path).2.2 =
      if env.connectOk server 445 then [Event.connect server 445, Event.close]
      else [Event.connect server 445]) ∧
    ((load_images_combined env enc [] folder_path).2.2).countP Event.isConnect = 1 ∧
    (env.connectOk server 445 = true →
      ((load_images_combined env enc [] folder_path).2.2).count Event.close = 1) := by
  have hpre := parse_smb_url_ok_scheme hok
  have hne := scheme_url_not_isEmpty hpre
  have htr : (load_images_combined env enc [] folder_path).2.2 =
      if env.connectOk server 445 then [Event.connect server 445, Event.close]
      else [Event.connect server 445] := by
    unfold load_images_combined
    simp only [hok, hne, hpre, List.isEmpty_nil, not_true_eq_false, if_false,
      Bool.false_eq_true, not_false_eq_true, if_true]
    split
    · rename_i hc
      rw [finishLoad_trace]
    · rfl
  refine ⟨htr, ?_, ?_⟩
  · rw [htr]
    split <;> simp [List.countP_cons, Event.isConnect]
  · intro hc
    rw [htr, if_pos hc]
    simp [List.count_cons]

/-- Witness for C7 at a concrete input: `smb://srv/sh` with a succeeding
connection. -/
theorem smb_connect_once_witness :
    (parse_smb_url (pyStr "smb://srv/sh") =
      .ok (pyStr "srv", pyStr "sh", pyStr "/")) ∧
    (((load_images_combined
        ⟨fun _ => none, fun _ => none, fun _ _ => true, fun _ => false,
          fun _ => .node true [] [], fun _ _ => .node true [] []⟩
        (fun _ => ([1] : Embedding)) [] (pyStr "smb://srv/sh")).2.2 =
      if (true : Bool) then [Event.connect (pyStr "srv") 445, Event.close]
      else [Event.connect (pyStr "srv") 445]) ∧
    ((load_images_combined
        ⟨fun _ => none, fun _ => none, fun _ _ => true, fun _ => false,
          fun _ => .node true [] [], fun _ _ => .node true [] []⟩
        (fun _ => ([1] : Embedding)) [] (pyStr "smb://srv/sh")).2.2).countP
      Event.isConnect = 1 ∧
    ((true : Bool) = true →
      ((load_images_combined
          ⟨fun _ => none, fun _ => none, fun _ _ => true, fun _ => false,
            fun _ => .node true [] [], fun _ _ => .node true [] []⟩
          (fun _ => ([1] : Embedding)) [] (pyStr "smb://srv/sh")).2.2).count
        Event.close = 1)) :=
  ⟨by rfl,
    smb_connect_once
      ⟨fun _ => none, fun _ => none, fun _ _ => true, fun _ => false,
        fun _ => .node true [] [], fun _ _ => .node true [] []⟩
      (fun _ => ([1] : Embedding)) (pyStr "smb://srv/sh")
      (pyStr "srv") (pyStr "sh") (pyStr "/") (by rfl)⟩

theorem suffix_pathJoin (a b : PyStr) : b <:+ pathJoin a b := by
  unfold pathJoin
  split
  · exact ⟨a, rfl⟩
  · exact ⟨a ++ ['/'], by simp⟩

theorem hasImageExt_pathJoin {a b : PyStr} (h : hasImageExt b = true) :
    hasImageExt (pathJoin a b) = true := by
  rw [hasImageExt, List.any_eq_true] at h ⊢
  rcases h with ⟨ext, hmem, hsuf⟩
  refine ⟨ext, hmem, ?_⟩
  rw [List.isSuffixOf_iff_suffix] at hsuf ⊢
  exact hsuf.trans ((suffix_pathJoin a b).map Char.toLower)

theorem mem_walkImageCandidates {k : PyStr} {walk : List WalkFrame} :
    k ∈ walkImageCandidates walk ↔
    ∃ fr ∈ walk, ∃ f ∈ fr.2.2, hasImageExt f = true ∧ k = pathJoin fr.1 f := by
  rw [walkImageCandidates, List.mem_flatMap]
  constructor
  · rintro ⟨fr, hfr, hk⟩
    rcases List.mem_map.mp hk with ⟨f, hf, rfl⟩
    rcases List.mem_filter.mp hf with ⟨hfmem, hfext⟩
    exact ⟨fr, hfr, f, hfmem, hfext, rfl⟩
  · rintro ⟨fr, hfr, f, hfmem, hfext, rfl⟩
    exact ⟨fr, hfr, List.mem_map.mpr ⟨f, List.mem_filter.mpr ⟨hfmem, hfext⟩, rfl⟩⟩

/-- C8: in the folder branches of `load_images_combined` (which load
`loadImagesFrom get (walkImageCandidates walk)` for the local or SMB
walk), every key of the resulting images map ends case-insensitively in
`.png`, `.jpg` or `.jpeg`; every file found during the walk whose name
passes that filter is attempted; and each attempted file that opens
successfully is present under its joined path. -/
theorem folder_load_extension_filter (get : PyStr → Option Image)
    (walk : List WalkFrame) (k : PyStr) (fr : WalkFrame) (f : PyStr)
    (hk : k ∈ (loadImagesFrom get (walkImageCandidates walk)).map Prod.fst)
    (hfr : fr ∈ walk) (hf : f ∈ fr.2.2) (hext : hasImageExt f = true) :
    hasImageExt k = true ∧
    pathJoin fr.1 f ∈ walkImageCandidates walk ∧
    (∀ img, get (pathJoin fr.1 f) = some img →
      dictLookup (pathJoin fr.1 f) (loadImagesFrom get (walkImageCandidates walk)) =
        some img) := by
  refine ⟨?_, ?_, ?_⟩
  · rw [mem_keys_iff_lookup_isSome, loadImagesFrom_lookup] at hk
    by_cases hmem : k ∈ walkImageCandidates walk
    · rcases mem_walkImageCandidates.mp hmem with ⟨fr', -, f', -, hext', rfl⟩
      exact hasImageExt_pathJoin hext'
    · rw [if_neg hmem] at hk
      cases hk
  · exact mem_walkImageCandidates.mpr ⟨fr, hfr, f, hf, hext, rfl⟩
  · intro img himg
    rw [loadImagesFrom_lookup,
      if_pos (mem_walkImageCandidates.mpr ⟨fr, hfr, f, hf, hext, rfl⟩), himg]

/-- Witness for C8 at a concrete input: one directory containing
`a.png` (loads) and `b.txt` (filtered out). -/
theorem folder_load_extension_filter_witness :
    (pyStr "/d/a.png" ∈ (loadImagesFrom (fun _ => some ⟨0⟩)
      (walkImageCandidates [(pyStr "/d", [], [pyStr "a.png", pyStr "b.txt"])])).map
        Prod.fst) ∧
    ((pyStr "/d", ([] : List PyStr), [pyStr "a.png", pyStr "b.txt"]) ∈
      [((pyStr "/d", [], [pyStr "a.png", pyStr "b.txt"]) : WalkFrame)]) ∧
    (pyStr "a.png" ∈ [pyStr "a.png", pyStr "b.txt"]) ∧
    (hasImageExt (pyStr "a.png") = true) ∧
    (hasImageExt (pyStr "/d/a.png") = true ∧
      pathJoin (pyStr "/d") (pyStr "a.png") ∈
        walkImageCandidates [(pyStr "/d", [], [pyStr "a.png", pyStr "b.txt"])] ∧
      (∀ img, (fun _ => some (⟨0⟩ : Image)) (pathJoin (pyStr "/d") (pyStr "a.png")) =
          some img →
        dictLookup (pathJoin (pyStr "/d") (pyStr "a.png"))
          (loadImagesFrom (fun _ => some ⟨0⟩)
            (walkImageCandidates [(pyStr "/d", [], [pyStr "a.png", pyStr "b.txt"])])) =
          some img)) :=
  ⟨by decide, by decide, by decide, by decide,
    folder_load_extension_filter (fun _ => some ⟨0⟩)
      [(pyStr "/d", [], [pyStr "a.png", pyStr "b.txt"])]
      (pyStr "/d/a.png") (pyStr "/d", [], [pyStr "a.png", pyStr "b.txt"])
      (pyStr "a.png") (by decide) (by decide) (by decide) (by decide)⟩

/-- C9: when uploaded files are given, they take precedence: the result of
`load_images_combined` is independent of the folder path and of every
folder-related part of the environment (no walk is consulted), and its
event trace is empty (no remote connection is opened). -/
theorem uploaded_files_take_precedence (env env' : Env) (enc : Image → Embedding)
    (files : List PyStr) (fp fp' : PyStr)
    (hne : files ≠ []) (hopen : env.openImage = env'.openImage) :
    load_images_combined env enc files fp = load_images_combined env' enc files fp' ∧
    (load_images_combined env enc files fp).2.2 = [] := by
  have hfe : files.isEmpty = false := by
    cases files
    · exact absurd rfl hne
    · rfl
  constructor
  · unfold load_images_combined
    rw [hfe, hopen]
    simp
  · unfold load_images_combined
    rw [hfe]
    simp [finishLoad_trace]

/-- Witness for C9 at a concrete input: one uploaded file, two folder
paths, two environments sharing the opener. -/
theorem uploaded_files_take_precedence_witness :
    (([pyStr "a"] : List PyStr) ≠ []) ∧
    ((⟨fun _ => some ⟨0⟩, fun _ => none, fun _ _ => true, fun _ => true,
        fun _ => .node true [] [], fun _ _ => .node true [] []⟩ : Env).openImage =
      (⟨fun _ => some ⟨0⟩, fun _ => some ⟨1⟩, fun _ _ => false, fun _ => false,
        fun _ => .node false [] [], fun _ _ => .node false [] []⟩ : Env).openImage) ∧
    ((load_images_combined
        ⟨fun _ => some ⟨0⟩, fun _ => none, fun _ _ => true, fun _ => true,
          fun _ => .node true [] [], fun _ _ => .node true [] []⟩
        (fun _ => ([1] : Embedding)) [pyStr "a"] (pyStr "/some/dir") =
      load_images_combined
        ⟨fun _ => some ⟨0⟩, fun _ => some ⟨1⟩, fun _ _ => false, fun _ => false,
          fun _ => .node false [] [], fun _ _ => .node false [] []⟩
        (fun _ => ([1] : Embedding)) [pyStr "a"] (pyStr "smb://srv/sh")) ∧
    (load_images_combined
        ⟨fun _ => some ⟨0⟩, fun _ => none, fun _ _ => true, fun _ => true,
          fun _ => .node true [] [], fun _ _ => .node true [] []⟩
        (fun _ => ([1] : Embedding)) [pyStr "a"] (pyStr "/some/dir")).2.2 = []) :=
  ⟨by decide, rfl,
    uploaded_files_take_precedence
      ⟨fun _ => some ⟨0⟩, fun _ => none, fun _ _ => true, fun _ => true,
        fun _ => .node true [] [], fun _ _ => .node true [] []⟩
      ⟨fun _ => some ⟨0⟩, fun _ => some ⟨1⟩, fun _ _ => false, fun _ => false,
        fun _ => .node false [] [], fun _ _ => .node false [] []⟩
      (fun _ => ([1] : Embedding)) [pyStr "a"] (pyStr "/some/dir")
      (pyStr "smb://srv/sh") (by decide) rfl⟩

/-- C10: with no session state (`None`), the search callback returns an
empty gallery and the clustering callback returns the status string
`"No images loaded."`; neither touches the embeddings. -/
theorem no_state_guards (gte : PyStr → Embedding)
    (cs : Embedding → Embedding → ℚ) (labels : List Nat)
    (p2b : Image → PyStr) (prompt : PyStr) (nc : Nat) :
    search_images gte cs prompt none = [] ∧
    cluster_images_gui labels p2b none nc = pyStr "No images loaded." :=
  ⟨rfl, rfl⟩

end Immanager
